import Mathlib

/-!
# Verification of the source-bruh photo-search backend

Shallow embedding of the core of the repository:

* the vector-search storage layer — `FirestoreDB` in `functions/db.py`
  (in-memory/local backend, which is the branch exercised by the test
  suite and fully visible in the source);
* the SQLite storage layer — `Database` in `src/db.py`;
* the incremental-ingestion synchronization loop — `ingest_once` in
  `functions/ingest.py`;
* the image-serving HTTP route — `get_image` in `functions/server.py`.

Python floats are modelled as exact rationals (`ℚ`) for stored data and
as real numbers (`ℝ`) for computed distances; `math.inf` results are
modelled by `none : Option ℝ` (the only place the code produces an
infinite value is `_cosine_distance`, and its only consumer tests it
with `math.isinf`).  Python `None` is modelled by `Option.none`, and
Python truthiness of optional strings by `optTruthy` below.
-/

namespace SourceBruh

/-- Python truthiness for an optional string: `None` and `""` are falsy.
`optTruthy o = some s` exactly when the Python value is truthy, in which
case `s` is that string. -/
def optTruthy (o : Option String) : Option String :=
  match o with
  | none => none
  | some s => if s = "" then none else some s

/-- Python `s.startswith(pre)`: character-level prefix test (Lean's
built-in `String.startsWith` is byte-based and kernel-opaque, so the
character-list form is used; the two agree on valid strings). -/
def strStartsWith (s pre : String) : Bool := pre.data.isPrefixOf s.data

/-- `sum(a * a for a in v)` — the squared Euclidean norm of a vector,
computed exactly over `ℚ`. -/
def sumSq (v : List ℚ) : ℚ := (v.map fun a => a * a).sum

/-- `sum(a * b for a, b in zip(vec1, vec2))` — the dot product as the code
computes it: Python's `zip` silently truncates to the shorter vector. -/
def dotZip (v1 v2 : List ℚ) : ℚ := ((v1.zip v2).map fun p => p.1 * p.2).sum

/-- `FirestoreDB._cosine_distance` (functions/db.py:258-269).

```python
if not vec1 or not vec2:
    return math.inf
dot = sum(a * b for a, b in zip(vec1, vec2))
norm1 = math.sqrt(sum(a * a for a in vec1))
norm2 = math.sqrt(sum(b * b for b in vec2))
if norm1 == 0 or norm2 == 0:
    return math.inf
cosine = dot / (norm1 * norm2)
return 1 - cosine
```

`math.inf` is modelled as `none`.  The source's zero test is on the
norms `math.sqrt(sum(a*a))`; since `Real.sqrt x = 0 ↔ x ≤ 0` and the
sums of squares are nonnegative, that test is equivalent to testing the
sums of squares themselves, which keeps the guard decidable
(`sqrt_sumSq_eq_zero_iff` below proves the equivalence). -/
noncomputable def cosineDistance (vec1 vec2 : List ℚ) : Option ℝ :=
  if vec1 = [] ∨ vec2 = [] then none
  else if sumSq vec1 = 0 ∨ sumSq vec2 = 0 then none
  else some (1 - (dotZip vec1 vec2 : ℝ) / (Real.sqrt (sumSq vec1) * Real.sqrt (sumSq vec2)))

/-- The source's zero test `norm == 0` on `math.sqrt(sum(a*a))` coincides
with the guard `sumSq v = 0` used in `cosineDistance`. -/
theorem sqrt_sumSq_eq_zero_iff (v : List ℚ) :
    Real.sqrt (sumSq v) = 0 ↔ (sumSq v : ℚ) = 0 := by
  have hnn : (0 : ℚ) ≤ sumSq v := by
    unfold sumSq
    induction v with
    | nil => simp
    | cons a t ih => simpa using add_nonneg (mul_self_nonneg a) ih
  rw [Real.sqrt_eq_zero']
  constructor
  · intro h
    have : ((sumSq v : ℚ) : ℝ) = 0 := le_antisymm h (by exact_mod_cast hnn)
    exact_mod_cast this
  · intro h; rw [h]; simp

/-- A blob value stored in the in-memory document store: either raw bytes
(Python `bytes`, modelled as a list of byte values) or a string (which
`get_image_blob` attempts to base64-decode). -/
inductive BlobValue where
  | bytes (b : List ℕ)
  | str (s : String)
deriving DecidableEq

/-- One document of the `images` collection as the local in-memory store of
`FirestoreDB` keeps it (`_local_images`): the fields that
`search_vectors`, `_iter_image_documents` and `get_image_blob` read.
A `none` field models a key that is absent (or stored as `None`). -/
structure ImageDoc where
  embedding : Option (List ℚ) := none
  image_rowid : Option String := none
  description : Option String := none
  album_title : Option String := none
  timestamp : Option String := none
  thumb_path : Option String := none
  thumb_url : Option String := none
  file_path : Option String := none
  image_url : Option String := none
  user_id : Option String := none
  mime_type : Option String := none
  image_bytes : Option BlobValue := none
  thumb_bytes : Option BlobValue := none
deriving DecidableEq

/-- The in-memory store `FirestoreDB._local_images`: a Python dict from
document id to document, modelled as an association list in insertion
order (Python dicts preserve insertion order). -/
abbrev ImageStore := List (String × ImageDoc)

/-- `FirestoreDB._iter_image_documents` (functions/db.py:233-245), local
branch:

```python
for image_id, data in self._local_images.items():
    if user_id and data.get("user_id") not in (None, user_id):
        continue
    yield image_id, data
```
-/
def iterImageDocuments (store : ImageStore) (userId : Option String) :
    List (String × ImageDoc) :=
  store.filter fun p =>
    match optTruthy userId with
    | none => true
    | some _ => p.2.user_id = none || p.2.user_id = userId

/-- One result record built by `search_vectors` (functions/db.py:95-106). -/
structure SearchRecord where
  image_rowid : String
  distance : ℝ
  description : Option String
  album_title : Option String
  timestamp : Option String
  thumb_path : Option String
  thumb_url : Option String
  file_path : Option String
  image_url : Option String
  user_id : Option String

/-- The record dict literal of `search_vectors`; `data.get("image_rowid")
or doc_id` falls back to the document id when the field is absent or
empty (Python `or` truthiness). -/
def searchRecordOf (docId : String) (data : ImageDoc) (distance : ℝ) :
    SearchRecord :=
  { image_rowid := (optTruthy data.image_rowid).getD docId
    distance := distance
    description := data.description
    album_title := data.album_title
    timestamp := data.timestamp
    thumb_path := data.thumb_path
    thumb_url := data.thumb_url
    file_path := data.file_path
    image_url := data.image_url
    user_id := data.user_id }

/-- One iteration of the candidate loop of `search_vectors`
(functions/db.py:88-107); `none` models `continue`:

```python
for doc_id, data in self._iter_image_documents(user_id=user_id):
    embedding = data.get("embedding")
    if not embedding:
        continue
    distance = self._cosine_distance(query_vector, embedding)
    if math.isinf(distance):
        continue
    record = {...}
    results.append(record)
```
-/
noncomputable def candFun (queryVector : List ℚ) (p : String × ImageDoc) :
    Option SearchRecord :=
  match p.2.embedding with
  | none => none
  | some emb =>
    if emb = [] then none
    else
      match cosineDistance queryVector emb with
      | none => none
      | some d => some (searchRecordOf p.1 p.2 d)

/-- The candidate list accumulated by the loop of `search_vectors` before
sorting: `candFun` applied to every document the tenant filter yields. -/
noncomputable def searchCandidates (store : ImageStore) (queryVector : List ℚ)
    (userId : Option String) : List SearchRecord :=
  (iterImageDocuments store userId).filterMap (candFun queryVector)

/-- `FirestoreDB.search_vectors` (functions/db.py:83-110): collect
candidates, `results.sort(key=lambda item: item["distance"])` (a stable
ascending sort), then `results[:top_k]`. -/
noncomputable def searchVectors (store : ImageStore) (queryVector : List ℚ)
    (topK : ℕ) (userId : Option String) : List SearchRecord :=
  ((searchCandidates store queryVector userId).mergeSort
    (fun a b => decide (a.distance ≤ b.distance))).take topK

/-- Python dict assignment `d[k] = v` on an insertion-ordered
association list: an existing key keeps its position and gets the new
value; a new key is appended at the end. -/
def dictInsert {V : Type} : List (String × V) → String → V → List (String × V)
  | [], k, v => [(k, v)]
  | (k', v') :: rest, k, v =>
    if k' = k then (k, v) :: rest else (k', v') :: dictInsert rest k v

/-- The argument dict of `FirestoreDB.add_image_data`: the `image_id` key
(popped by the function) together with the remaining fields, which are
the stored document.  The embedding values are already rationals, so the
source's `[float(x) for x in embedding]` cast is the identity here. -/
structure ImagePayload where
  image_id : Option String := none
  doc : ImageDoc := {}
deriving DecidableEq

/-- `FirestoreDB.add_image_data` (functions/db.py:47-76), local branch:

```python
data = dict(image_data)
if user_id:
    data.setdefault("user_id", user_id)
embedding = data.get("embedding")
if embedding is not None:
    data["embedding"] = [float(x) for x in embedding]
image_id = data.pop("image_id", None) or data.get("image_rowid")
image_id = str(image_id) if image_id is not None else None
if image_id is None:
    image_id = str(len(self._local_images) + 1)
data.setdefault("image_rowid", image_id)
self._local_images[image_id] = data
return image_id
```

Returns the updated store and the returned id.  `str(...)` applied to
values that are modelled as strings is the identity.  The body is split
into named pieces: `userDefaulted` is the `setdefault("user_id", ...)`
step, `storedDoc` additionally performs `setdefault("image_rowid",
image_id)`. -/
def userDefaulted (payload : ImagePayload) (userId : Option String) : ImageDoc :=
  if (optTruthy userId).isSome ∧ payload.doc.user_id = none then
    { payload.doc with user_id := userId }
  else payload.doc

def storedDoc (payload : ImagePayload) (userId : Option String)
    (key : String) : ImageDoc :=
  let doc1 := userDefaulted payload userId
  if doc1.image_rowid = none then { doc1 with image_rowid := some key } else doc1

def addImageData (store : ImageStore) (payload : ImagePayload)
    (userId : Option String) : ImageStore × String :=
  let doc1 := userDefaulted payload userId
  let key0 : Option String :=
    match optTruthy payload.image_id with
    | some s => some s
    | none => doc1.image_rowid
  let key : String :=
    match key0 with
    | some s => s
    | none => toString (store.length + 1)
  (dictInsert store key (storedDoc payload userId key), key)

/-- One row of the SQLite `images` table (src/db.py:28-41).  The `tags`
column is modelled at the serialized level (the source stores
`json.dumps(tags)` when a dict is passed, otherwise the value itself). -/
structure ImageRow where
  rowid : ℕ
  google_media_id : Option String
  album_title : Option String
  file_path : String
  thumb_path : Option String
  timestamp : Option String
  width : Option ℤ
  height : Option ℤ
  sha256 : Option String
  description : Option String
  ocr_text : Option String
  tags : Option String
deriving DecidableEq

/-- The column values passed to `Database.upsert_image`. -/
structure UpsertArgs where
  google_media_id : Option String := none
  album_title : Option String := none
  file_path : String
  thumb_path : Option String := none
  timestamp : Option String := none
  width : Option ℤ := none
  height : Option ℤ := none
  sha256 : Option String := none
  description : Option String := none
  ocr_text : Option String := none
  tags : Option String := none
deriving DecidableEq

/-- A freshly inserted row: SQLite assigns `max(rowid) + 1`. -/
def rowOfArgs (rowid : ℕ) (a : UpsertArgs) : ImageRow :=
  { rowid := rowid
    google_media_id := a.google_media_id
    album_title := a.album_title
    file_path := a.file_path
    thumb_path := a.thumb_path
    timestamp := a.timestamp
    width := a.width
    height := a.height
    sha256 := a.sha256
    description := a.description
    ocr_text := a.ocr_text
    tags := a.tags }

/-- The `DO UPDATE SET` clause of `upsert_image`: every non-key column is
overwritten with the excluded (new) values; `rowid` and the conflicting
`google_media_id` are kept. -/
def updateRow (r : ImageRow) (a : UpsertArgs) : ImageRow :=
  { r with
    album_title := a.album_title
    file_path := a.file_path
    thumb_path := a.thumb_path
    timestamp := a.timestamp
    width := a.width
    height := a.height
    sha256 := a.sha256
    description := a.description
    ocr_text := a.ocr_text
    tags := a.tags }

/-- The next SQLite rowid: one more than the largest in the table. -/
def freshRowid (table : List ImageRow) : ℕ :=
  (table.map (·.rowid)).foldr max 0 + 1

/-- `Database.upsert_image` (src/db.py:63-121): an
`INSERT ... ON CONFLICT(google_media_id) DO UPDATE` statement followed
by a `SELECT rowid` keyed by `google_media_id` (or by `file_path` when
the media id is `NULL`).  A SQLite `UNIQUE` column treats `NULL`s as
pairwise distinct, so a conflict arises only for a non-null media id
already present; at most one row can carry it, so updating every
matching row coincides with updating the conflicting row.  The returned
rowid is `none` only if the select finds no row (the source would raise
there). -/
def upsertTable (table : List ImageRow) (a : UpsertArgs) : List ImageRow :=
  match a.google_media_id with
  | some g =>
    if table.any (fun r => r.google_media_id = some g) then
      table.map fun r => if r.google_media_id = some g then updateRow r a else r
    else table ++ [rowOfArgs (freshRowid table) a]
  | none => table ++ [rowOfArgs (freshRowid table) a]

def upsertRowid (table' : List ImageRow) (a : UpsertArgs) : Option ℕ :=
  match a.google_media_id with
  | some g => (table'.find? fun r => r.google_media_id = some g).map (·.rowid)
  | none => (table'.find? fun r => r.file_path = a.file_path).map (·.rowid)

def upsertImage (table : List ImageRow) (a : UpsertArgs) :
    List ImageRow × Option ℕ :=
  (upsertTable table a, upsertRowid (upsertTable table a) a)

/-- `str.encode("utf-8")` — the fallback taken when base64 decoding of a
string blob fails. -/
def utf8Bytes (s : String) : List ℕ :=
  s.toUTF8.toList.map (·.toNat)

/-- `FirestoreDB.get_image_blob` (functions/db.py:120-148), local branch
(`_get_image_document` is `self._local_images.get(key)` at line 256).
The two external effects are parameters: `decodeB64` models
`base64.b64decode` (`none` when it raises, which triggers the UTF-8
fallback) and `readFile` models `os.path.exists` + `open(...).read()`
(`none` when the path is missing). -/
def getImageBlob (decodeB64 : String → Option (List ℕ))
    (readFile : String → Option (List ℕ)) (store : ImageStore)
    (imageId : String) (preferThumb : Bool) :
    Option (List ℕ) × Option String :=
  match store.lookup imageId with
  | none => (none, none)
  | some doc =>
    let mimeType := doc.mime_type.getD "image/jpeg"
    let blob := if preferThumb then doc.thumb_bytes else doc.image_bytes
    match blob with
    | some (BlobValue.bytes b) => (some b, some mimeType)
    | some (BlobValue.str s) =>
      match decodeB64 s with
      | some b => (some b, some mimeType)
      | none => (some (utf8Bytes s), some mimeType)
    | none =>
      let filePath := if preferThumb then doc.thumb_path else doc.file_path
      match optTruthy filePath with
      | some fp =>
        match readFile fp with
        | some b => (some b, some mimeType)
        | none => (none, some mimeType)
      | none => (none, some mimeType)

/-- Outcome of an HTTP route: a response body with a media type, or an
`HTTPException` with a status code and detail string. -/
inductive HttpResult where
  | ok (content : List ℕ) (mediaType : String)
  | httpError (status : ℕ) (detail : String)
deriving DecidableEq

/-- The `GET /image/{image_rowid}` route (functions/server.py:163-168):

```python
blob, mime_type = db.get_image_blob(image_rowid, prefer_thumb=thumb == 1)
if blob is None:
    raise HTTPException(status_code=404, detail="Image not found")
return Response(content=blob, media_type=mime_type or "image/jpeg")
```
-/
def getImage (decodeB64 readFile : String → Option (List ℕ))
    (store : ImageStore) (imageRowid : String) (thumb : ℤ) : HttpResult :=
  match getImageBlob decodeB64 readFile store imageRowid (thumb == 1) with
  | (none, _) => .httpError 404 "Image not found"
  | (some blob, mime) => .ok blob ((optTruthy mime).getD "image/jpeg")

/-! ## Ingestion pipeline (`ingest_once`, functions/ingest.py)

The per-album item loop (lines 143-219).  The media source, thumbnail
utility and the Gemini oracle are external collaborators (spec §1
treats them as opaque pure functions); they are parameters of
`IngestEnv`.  An item's `mediaMetadata.creationTime` is carried already
parsed (`_parse_creation_time` returns `None` on absent or malformed
input, modelled by `none`); timestamps are integers under the order the
source's timezone-aware datetimes carry.  The filesystem writes of
lines 183-188 have no observable effect on the store or on the
collaborator calls and are not modelled. -/

/-- One media item as yielded by `photos_client.iter_media_items_in_album`. -/
structure MediaItem where
  id : Option String := none
  mimeType : Option String := none
  baseUrl : Option String := none
  filename : Option String := none
  creationTime : Option ℤ := none
  width : Option ℤ := none
  height : Option ℤ := none
deriving DecidableEq

/-- The persisted fields of one ledger record that the ingestion claims
depend on (dedup key, album scope, watermark timestamp, oracle
outputs). -/
structure StoredRecord where
  media_id : String
  album_title : Option String := none
  timestamp : ℤ := 0
  description : String := ""
  embedding : List ℚ := []
deriving DecidableEq

/-- An observable call made while processing items: a download from the
media source, an oracle call (describe / embed), or a store upsert. -/
inductive IngestEvent where
  | download (baseUrl : String)
  | describe (image : List ℕ)
  | embed (text : String)
  | upsert (mediaId : String) (timestamp : ℤ)
deriving DecidableEq

/-- External collaborators of the pipeline, as pure functions. -/
structure IngestEnv where
  download : String → List ℕ
  thumbnail : List ℕ → List ℕ
  describe : List ℕ → String
  embedText : String → List ℚ

/-- The mutable state of one album's loop: the store contents, the
`last_timestamp` local variable, and the log of external calls. -/
structure IngestState where
  records : List StoredRecord
  lastTimestamp : Option ℤ
  events : List IngestEvent
deriving DecidableEq

/-- Modelled from the spec: `exists(tenant, external_media_id) -> bool`
(spec §4.1).  `db.has_media_item` is called at functions/ingest.py:162
but the method itself is not defined under src/; the reference stub in
functions/tests/test_ingest.py checks membership of the media id among
the stored records, as here. -/
def hasMediaItem (records : List StoredRecord) (mediaId : String) : Bool :=
  records.any (·.media_id = mediaId)

/-- Modelled from the spec: `latestTimestamp(tenant_id, album_title | none)`
returns the maximum `timestamp` among matching records, or none when no
records match (spec §4.1).  `db.get_latest_media_timestamp` is called at
functions/ingest.py:147 but not defined under src/; the reference stub
in functions/tests/test_ingest.py skips records of other albums when an
album title is given (Python truthiness) and folds a running maximum, as
here. -/
def getLatestMediaTimestamp (records : List StoredRecord)
    (albumTitle : Option String) : Option ℤ :=
  records.foldl (fun best r =>
    if (optTruthy albumTitle).isSome ∧ r.album_title ≠ albumTitle then best
    else
      match best with
      | none => some r.timestamp
      | some b => if r.timestamp > b then some r.timestamp else best) none

/-- Modelled from the spec: `upsert(tenant_id, external_media_id, record)`
inserts or fully replaces the record identified by the media id
(spec §4.1).  `db.upsert_media_item` is called at
functions/ingest.py:193 but not defined under src/. -/
def upsertMediaItem (records : List StoredRecord) (r : StoredRecord) :
    List StoredRecord :=
  if records.any (·.media_id = r.media_id) then
    records.map fun s => if s.media_id = r.media_id then r else s
  else records ++ [r]

/-- `if last_timestamp and timestamp_dt <= last_timestamp`
(functions/ingest.py:175) — a datetime is always truthy, so the guard is
exactly "a previous timestamp exists and the item's is not newer". -/
def staleCheck (lastTimestamp : Option ℤ) (ts : ℤ) : Bool :=
  match lastTimestamp with
  | some lt => ts ≤ lt
  | none => false

/-- The processing tail of the item loop of `ingest_once`
(functions/ingest.py:177-219), reached once every skip test has failed:
download, thumbnail, describe, embed (embedding only for a non-empty
description — `gemini_client` is always constructed by `ingest_once`, so
the describe call always happens here), upsert, then advance
`last_timestamp` to the item's timestamp when it is newer (lines
218-219). -/
def ingestStep (env : IngestEnv) (albumTitle : Option String)
    (st : IngestState) (item : MediaItem) (mediaId baseUrl : String) :
    IngestState :=
  let timestampDt : ℤ := item.creationTime.getD 0
  let imageBytes := env.download baseUrl
  let description := env.describe imageBytes
  let embedding := if description = "" then [] else env.embedText description
  let newRecord : StoredRecord :=
    { media_id := mediaId
      album_title := albumTitle
      timestamp := timestampDt
      description := description
      embedding := embedding }
  { records := upsertMediaItem st.records newRecord
    lastTimestamp :=
      match st.lastTimestamp with
      | none => some timestampDt
      | some lt => if timestampDt > lt then some timestampDt else some lt
    events := st.events
      ++ [.download baseUrl, .describe imageBytes]
      ++ (if description = "" then [] else [.embed description])
      ++ [.upsert mediaId timestampDt] }

/-- The body of the item loop of `ingest_once`
(functions/ingest.py:154-219) for one item:

* skip non-image MIME types (line 155);
* skip items with a falsy id (lines 158-160);
* skip items the store already has (lines 162-163);
* skip items with a falsy base URL (lines 165-167);
* parse the creation time, falling back to the epoch, and skip items not
  newer than `last_timestamp` (lines 171-176);
* otherwise run the processing tail `ingestStep`. -/
def processItem (env : IngestEnv) (albumTitle : Option String)
    (st : IngestState) (item : MediaItem) : IngestState :=
  if ¬ strStartsWith (item.mimeType.getD "") "image/" then st
  else
    match optTruthy item.id with
    | none => st
    | some mediaId =>
      if hasMediaItem st.records mediaId then st
      else
        match optTruthy item.baseUrl with
        | none => st
        | some baseUrl =>
          if staleCheck st.lastTimestamp (item.creationTime.getD 0) then st
          else ingestStep env albumTitle st item mediaId baseUrl

/-- The state in which one album's item loop starts: the watermark is
read once, before iterating (functions/ingest.py:144-149; the
`hasattr` guard holds and the `try/except` never fires for a store
that implements `get_latest_media_timestamp` totally). -/
def initIngestState (records : List StoredRecord) (albumTitle : Option String) :
    IngestState :=
  { records := records
    lastTimestamp := getLatestMediaTimestamp records albumTitle
    events := [] }

/-- One album's run of `ingest_once` (functions/ingest.py:143-219): read
the watermark once, then fold the item loop over the items the source
yields. -/
def ingestAlbum (env : IngestEnv) (records : List StoredRecord)
    (albumTitle : Option String) (items : List MediaItem) : IngestState :=
  items.foldl (processItem env albumTitle) (initIngestState records albumTitle)

/-! ## Theorems -/

/-- The spec's distance formula, written from the spec's words: "cosine
distance = `1 - (dot(a,b) / (|a| * |b|))`", with the dot product taken
over the common index range of two equal-length vectors and the
magnitudes being Euclidean norms. -/
noncomputable def specCosineDistance (a b : List ℚ) : ℝ :=
  1 - ((∑ i ∈ Finset.range a.length, a.getD i 0 * b.getD i 0 : ℚ) : ℝ) /
    (Real.sqrt (sumSq a) * Real.sqrt (sumSq b))

theorem dotZip_cons (x y : ℚ) (xs ys : List ℚ) :
    dotZip (x :: xs) (y :: ys) = x * y + dotZip xs ys := by
  simp [dotZip]

theorem dotZip_eq_sum_range (a b : List ℚ) (h : a.length = b.length) :
    dotZip a b = ∑ i ∈ Finset.range a.length, a.getD i 0 * b.getD i 0 := by
  induction a generalizing b with
  | nil => simp [dotZip]
  | cons x xs ih =>
    cases b with
    | nil => simp at h
    | cons y ys =>
      have h' : xs.length = ys.length := by
        simpa using h
      rw [dotZip_cons, ih ys h', List.length_cons, Finset.sum_range_succ']
      simp [add_comm]

theorem sumSq_nil : sumSq [] = 0 := rfl

theorem ne_nil_of_sumSq_ne_zero {a : List ℚ} (h : sumSq a ≠ 0) : a ≠ [] := by
  intro hnil; exact h (hnil ▸ sumSq_nil)

/-- Both guards of `cosineDistance` fail for vectors of non-zero
magnitude (an empty vector has magnitude zero), so the distance is the
finite cosine value over the zip-truncated pairing. -/
theorem cosineDistance_eq_some (a b : List ℚ) (ha0 : sumSq a ≠ 0)
    (hb0 : sumSq b ≠ 0) :
    cosineDistance a b =
      some (1 - (dotZip a b : ℝ) /
        (Real.sqrt (sumSq a) * Real.sqrt (sumSq b))) := by
  unfold cosineDistance
  rw [if_neg, if_neg]
  · rintro (h | h) <;> [exact ha0 h; exact hb0 h]
  · rintro (h | h) <;>
      [exact ne_nil_of_sumSq_ne_zero ha0 h; exact ne_nil_of_sumSq_ne_zero hb0 h]

/-- C3: the distance function used by nearest-neighbor search equals the
spec's cosine distance `1 - (dot(a,b) / (|a| * |b|))` for all vectors of
matching length with non-zero magnitude, and takes the values 0, 1 and 2
on the unit-vector examples. -/
theorem cosine_distance_matches_spec :
    (∀ a b : List ℚ, a.length = b.length → sumSq a ≠ 0 → sumSq b ≠ 0 →
      cosineDistance a b = some (specCosineDistance a b))
    ∧ cosineDistance [1, 0] [1, 0] = some 0
    ∧ cosineDistance [1, 0] [0, 1] = some 1
    ∧ cosineDistance [1, 0] [-1, 0] = some 2 := by
  refine ⟨?_, ?_, ?_, ?_⟩
  · intro a b hlen ha hb
    rw [cosineDistance_eq_some a b ha hb]
    unfold specCosineDistance
    rw [dotZip_eq_sum_range a b hlen]
  · rw [cosineDistance_eq_some _ _ (by norm_num [sumSq]) (by norm_num [sumSq])]
    norm_num [sumSq, dotZip, Real.sqrt_one]
  · rw [cosineDistance_eq_some _ _ (by norm_num [sumSq]) (by norm_num [sumSq])]
    norm_num [sumSq, dotZip, Real.sqrt_one]
  · rw [cosineDistance_eq_some _ _ (by norm_num [sumSq]) (by norm_num [sumSq])]
    norm_num [sumSq, dotZip, Real.sqrt_one]

theorem cosine_distance_matches_spec_witness :
    cosineDistance [1, 0] [0, 1] = some (specCosineDistance [1, 0] [0, 1]) :=
  cosine_distance_matches_spec.1 [1, 0] [0, 1] rfl (by norm_num [sumSq])
    (by norm_num [sumSq])

/-- C2, counterexample: `[1, 0]` and `[1]` are non-empty vectors of
different lengths, yet `_cosine_distance` returns the finite value `0`
for them (Python's `zip` truncates to the common prefix; there is no
length check), not an infinite distance as the claim states. -/
theorem mismatched_length_counterexample :
    ([1, 0] : List ℚ) ≠ [] ∧ ([1] : List ℚ) ≠ []
    ∧ ([1, 0] : List ℚ).length ≠ ([1] : List ℚ).length
    ∧ cosineDistance [1, 0] [1] = some 0 := by
  refine ⟨by decide, by decide, by decide, ?_⟩
  rw [cosineDistance_eq_some _ _ (by norm_num [sumSq]) (by norm_num [sumSq])]
  norm_num [sumSq, dotZip, Real.sqrt_one]

/-- C2, amended: for every pair of non-empty vectors with non-zero
magnitude — of matching length or not — the distance is the finite value
computed over the zip-truncated common prefix (with the magnitudes still
taken over the full vectors); such a pair is included in results, and
the computation is total, so it never raises.  An infinite distance
arises only for an empty vector or a zero-magnitude vector. -/
theorem mismatched_length_truncates (a b : List ℚ) (ha : a ≠ []) (hb : b ≠ [])
    (ha0 : sumSq a ≠ 0) (hb0 : sumSq b ≠ 0) :
    cosineDistance a b =
      some (1 - (dotZip a b : ℝ) /
        (Real.sqrt (sumSq a) * Real.sqrt (sumSq b))) :=
  cosineDistance_eq_some a b ha0 hb0

theorem mismatched_length_truncates_witness :
    cosineDistance [1, 0] [1] =
      some (1 - (dotZip [1, 0] [1] : ℝ) /
        (Real.sqrt (sumSq [1, 0]) * Real.sqrt (sumSq [1]))) :=
  mismatched_length_truncates [1, 0] [1] (by decide) (by decide)
    (by norm_num [sumSq]) (by norm_num [sumSq])

theorem lookup_eq_none_of_forall {V : Type} (store : List (String × V))
    (k : String) (h : ∀ p ∈ store, p.1 ≠ k) : store.lookup k = none := by
  induction store with
  | nil => rfl
  | cons p rest ih =>
    have hne : (k == p.1) = false := by
      have := h p (List.mem_cons_self p rest)
      simp only [beq_eq_false_iff_ne, ne_eq]
      exact fun hh => this hh.symm
    obtain ⟨k', v'⟩ := p
    simp only [List.lookup, hne]
    exact ih fun q hq => h q (List.mem_cons_of_mem _ hq)

/-- C10: fetching an image by an internal identifier that is not a key of
the store yields no bytes (and no mime type) from `get_image_blob`, and
the `GET /image/{id}` route answers a 404 `HTTPException`; both
functions are total, so no unhandled error and no arbitrary data. -/
theorem unknown_image_id_not_found (decodeB64 readFile : String → Option (List ℕ))
    (store : ImageStore) (imageId : String) (thumb : ℤ) (preferThumb : Bool)
    (h : ∀ p ∈ store, p.1 ≠ imageId) :
    getImageBlob decodeB64 readFile store imageId preferThumb = (none, none)
    ∧ getImage decodeB64 readFile store imageId thumb
      = .httpError 404 "Image not found" := by
  have hl : store.lookup imageId = none := lookup_eq_none_of_forall store imageId h
  constructor
  · unfold getImageBlob
    rw [hl]
  · unfold getImage getImageBlob
    rw [hl]

theorem unknown_image_id_not_found_witness :
    getImageBlob (fun _ => none) (fun _ => none) [] "42" false = (none, none)
    ∧ getImage (fun _ => none) (fun _ => none) [] "42" 0
      = .httpError 404 "Image not found" :=
  unknown_image_id_not_found (fun _ => none) (fun _ => none) [] "42" 0 false
    (by intro p hp; cases hp)

theorem sumSq_cons (a : ℚ) (t : List ℚ) : sumSq (a :: t) = a * a + sumSq t := by
  simp [sumSq]

theorem sumSq_eq_zero_of_all_zero {v : List ℚ} (h : ∀ x ∈ v, x = 0) :
    sumSq v = 0 := by
  induction v with
  | nil => rfl
  | cons a t ih =>
    have ha := h a (List.mem_cons_self a t)
    have ht := ih fun x hx => h x (List.mem_cons_of_mem a hx)
    rw [sumSq_cons, ha, ht]
    ring

theorem cosineDistance_none_of_right {a b : List ℚ} (hb : sumSq b = 0) :
    cosineDistance a b = none := by
  unfold cosineDistance
  by_cases h1 : a = [] ∨ b = []
  · rw [if_pos h1]
  · rw [if_neg h1, if_pos (Or.inr hb)]

theorem candFun_none_of_zero_embedding (q : List ℚ) (p : String × ImageDoc)
    (h : p.2.embedding = none ∨ p.2.embedding = some []
      ∨ ∃ v, p.2.embedding = some v ∧ ∀ x ∈ v, x = (0 : ℚ)) :
    candFun q p = none := by
  unfold candFun
  rcases h with h | h | ⟨v, hv, hz⟩
  · rw [h]
  · rw [h]
    simp
  · rw [hv]
    by_cases hvnil : v = []
    · simp [hvnil]
    · show (if v = [] then none
        else match cosineDistance q v with
          | none => none
          | some d => some (searchRecordOf p.1 p.2 d)) = none
      rw [if_neg hvnil,
        cosineDistance_none_of_right (sumSq_eq_zero_of_all_zero hz)]

theorem filterMap_filter_middle {α β : Type} (f : α → Option β) (p : α → Bool)
    (l1 l2 : List α) (x : α) (hf : f x = none) :
    (List.filter p (l1 ++ x :: l2)).filterMap f
      = (List.filter p (l1 ++ l2)).filterMap f := by
  rw [List.filter_append, List.filter_append, List.filterMap_append,
    List.filterMap_append, List.filter_cons]
  by_cases hp : p x = true
  · rw [if_pos hp, List.filterMap_cons_none hf]
  · rw [if_neg hp]

/-- C5: a stored record whose embedding is missing, empty, or all-zero
contributes nothing to nearest-neighbor search — removing it from the
store leaves the search results unchanged at every position, so it is
excluded from the results; and since the search functions are total,
such a record never causes an error (the all-zero case is treated as
infinite distance by `_cosine_distance` and dropped by the `isinf`
check; the missing/empty cases are dropped by `if not embedding`). -/
theorem zero_embedding_excluded (l1 l2 : ImageStore) (docId : String)
    (doc : ImageDoc) (q : List ℚ) (k : ℕ) (uid : Option String)
    (h : doc.embedding = none ∨ doc.embedding = some []
      ∨ ∃ v, doc.embedding = some v ∧ ∀ x ∈ v, x = (0 : ℚ)) :
    searchVectors (l1 ++ (docId, doc) :: l2) q k uid
      = searchVectors (l1 ++ l2) q k uid := by
  have hf : candFun q (docId, doc) = none :=
    candFun_none_of_zero_embedding q _ h
  unfold searchVectors searchCandidates iterImageDocuments
  rw [filterMap_filter_middle _ _ l1 l2 _ hf]

theorem zero_embedding_excluded_witness :
    searchVectors ([] ++ ("z", { embedding := some [] }) :: []) [1] 5 none
      = searchVectors ([] ++ []) [1] 5 none :=
  zero_embedding_excluded [] [] "z" { embedding := some [] } [1] 5 none
    (Or.inr (Or.inl rfl))

/-- C9: tenant scoping in search is not strict.  A stored record whose
`user_id` is absent is a search candidate for every caller (first
conjunct: if its embedding is non-empty with a finite distance, the
corresponding record is among the candidates regardless of the `uid`
argument), and the tenant filter of `_iter_image_documents` keeps
exactly the records whose `user_id` is null or equal to the caller's —
it only excludes records carrying a different non-null `user_id`
(second conjunct). -/
theorem tenant_filter_lenient (store : ImageStore) (q : List ℚ)
    (uid : Option String) (docId : String) (doc : ImageDoc)
    (hmem : (docId, doc) ∈ store) (hnull : doc.user_id = none)
    (emb : List ℚ) (hemb : doc.embedding = some emb) (hne : emb ≠ [])
    (d : ℝ) (hd : cosineDistance q emb = some d) :
    searchRecordOf docId doc d ∈ searchCandidates store q uid
    ∧ ∀ p ∈ store, (p ∈ iterImageDocuments store uid ↔
        (optTruthy uid = none ∨ p.2.user_id = none ∨ p.2.user_id = uid)) := by
  constructor
  · unfold searchCandidates
    rw [List.mem_filterMap]
    refine ⟨(docId, doc), ?_, ?_⟩
    · unfold iterImageDocuments
      rw [List.mem_filter]
      refine ⟨hmem, ?_⟩
      cases huid : optTruthy uid with
      | none => rfl
      | some u => simp [hnull]
    · unfold candFun
      simp only [hemb]
      rw [if_neg hne, hd]
  · intro p hp
    unfold iterImageDocuments
    rw [List.mem_filter]
    cases huid : optTruthy uid with
    | none => simp [hp]
    | some u => simp [hp, huid]

theorem tenant_filter_lenient_witness :
    searchRecordOf "a" { embedding := some [1, 0] }
        (1 - (dotZip [1, 0] [1, 0] : ℝ) /
          (Real.sqrt (sumSq [1, 0]) * Real.sqrt (sumSq [1, 0])))
      ∈ searchCandidates [("a", { embedding := some [1, 0] })] [1, 0]
          (some "other-tenant")
    ∧ ∀ p ∈ ([("a", { embedding := some [1, 0] })] : ImageStore),
        (p ∈ iterImageDocuments [("a", { embedding := some [1, 0] })]
            (some "other-tenant") ↔
          (optTruthy (some "other-tenant") = none ∨ p.2.user_id = none
            ∨ p.2.user_id = some "other-tenant")) :=
  tenant_filter_lenient [("a", { embedding := some [1, 0] })] [1, 0]
    (some "other-tenant") "a" { embedding := some [1, 0] }
    (List.mem_cons_self _ _) rfl [1, 0] rfl (by decide) _
    (cosineDistance_eq_some [1, 0] [1, 0] (by norm_num [sumSq])
      (by norm_num [sumSq]))

theorem length_filterMap_of_forall_isSome {α β : Type} (f : α → Option β)
    (l : List α) (h : ∀ a ∈ l, (f a).isSome) :
    (l.filterMap f).length = l.length := by
  induction l with
  | nil => rfl
  | cons x xs ih =>
    obtain ⟨y, hy⟩ := Option.isSome_iff_exists.mp (h x (List.mem_cons_self x xs))
    rw [List.filterMap_cons_some hy, List.length_cons, List.length_cons,
      ih fun a ha => h a (List.mem_cons_of_mem x ha)]

/-- C4: over a corpus of N stored records that all belong to the queried
tenant's view and all have a non-empty embedding at a finite (and
pairwise distinct) distance from the query vector, `search_vectors` with
a positive `top_k = k` returns exactly `min k N` records, sorted in
ascending order of distance. -/
theorem topk_sorted_min (store : ImageStore) (q : List ℚ) (k : ℕ)
    (uid : Option String) (hk : 0 < k)
    (htenant : ∀ p ∈ store, p.2.user_id = none ∨ p.2.user_id = uid)
    (hemb : ∀ p ∈ store, ∃ emb d, p.2.embedding = some emb ∧ emb ≠ []
      ∧ cosineDistance q emb = some d)
    (hdist : (searchCandidates store q uid).Pairwise
      (fun a b => a.distance ≠ b.distance)) :
    (searchVectors store q k uid).length = min k store.length
    ∧ (searchVectors store q k uid).Pairwise
      (fun a b => a.distance ≤ b.distance) := by
  have hiter : iterImageDocuments store uid = store := by
    unfold iterImageDocuments
    rw [List.filter_eq_self]
    intro p hp
    cases huid : optTruthy uid with
    | none => rfl
    | some u => rcases htenant p hp with h | h <;> simp [h]
  have hsome : ∀ p ∈ store, (candFun q p).isSome := by
    intro p hp
    obtain ⟨emb, d, he, hne, hd⟩ := hemb p hp
    unfold candFun
    simp only [he]
    rw [if_neg hne, hd]
    rfl
  have hlen : (searchCandidates store q uid).length = store.length := by
    unfold searchCandidates
    rw [hiter]
    exact length_filterMap_of_forall_isSome _ _ hsome
  constructor
  · unfold searchVectors
    rw [List.length_take, List.length_mergeSort, hlen]
  · have hsorted := @List.sorted_mergeSort SearchRecord
      (fun a b => decide (a.distance ≤ b.distance))
      (fun a b c hab hbc => by
        simp only [decide_eq_true_eq] at *
        exact le_trans hab hbc)
      (fun a b => by
        simp only [Bool.or_eq_true, decide_eq_true_eq]
        exact le_total a.distance b.distance)
      (searchCandidates store q uid)
    have hsorted' := hsorted.imp fun hab => of_decide_eq_true hab
    exact hsorted'.sublist (List.take_sublist k _)

theorem topk_sorted_min_witness :
    (searchVectors [("a", { embedding := some [1, 0] })] [1, 0] 1 none).length
      = min 1 1
    ∧ (searchVectors [("a", { embedding := some [1, 0] })] [1, 0] 1
        none).Pairwise (fun a b => a.distance ≤ b.distance) :=
  topk_sorted_min [("a", { embedding := some [1, 0] })] [1, 0] 1 none
    (by decide)
    (by
      intro p hp
      rw [List.mem_singleton] at hp
      subst hp
      exact Or.inl rfl)
    (by
      intro p hp
      rw [List.mem_singleton] at hp
      subst hp
      exact ⟨[1, 0], _, rfl, by decide,
        cosineDistance_eq_some [1, 0] [1, 0] (by norm_num [sumSq])
          (by norm_num [sumSq])⟩)
    (by
      have hi : iterImageDocuments [("a", { embedding := some [1, 0] })] none
          = [("a", { embedding := some [1, 0] })] := rfl
      unfold searchCandidates
      rw [hi, List.filterMap_cons]
      cases hc : candFun [1, 0] ("a", { embedding := some [1, 0] }) <;>
        simp [hc])

theorem dictInsert_lookup {V : Type} (s : List (String × V)) (k : String)
    (v : V) : (dictInsert s k v).lookup k = some v := by
  induction s with
  | nil => simp [dictInsert, List.lookup]
  | cons p rest ih =>
    obtain ⟨k', v'⟩ := p
    by_cases h : k' = k
    · simp [dictInsert, h, List.lookup]
    · have hne : (k == k') = false := by
        simp only [beq_eq_false_iff_ne, ne_eq]
        exact fun hh => h hh.symm
      simp [dictInsert, h, List.lookup, hne, ih]

theorem dictInsert_dictInsert {V : Type} (s : List (String × V)) (k : String)
    (v w : V) : dictInsert (dictInsert s k v) k w = dictInsert s k w := by
  induction s with
  | nil => simp [dictInsert]
  | cons p rest ih =>
    obtain ⟨k', v'⟩ := p
    by_cases h : k' = k
    · simp [dictInsert, h]
    · simp [dictInsert, h, ih]

theorem map_fst_dictInsert {V : Type} (s : List (String × V)) (k : String)
    (v : V) : (dictInsert s k v).map Prod.fst
      = if k ∈ s.map Prod.fst then s.map Prod.fst else s.map Prod.fst ++ [k] := by
  induction s with
  | nil => simp [dictInsert]
  | cons p rest ih =>
    obtain ⟨k', v'⟩ := p
    by_cases h : k' = k
    · simp [dictInsert, h]
    · simp only [dictInsert, if_neg h, List.map_cons, ih, List.mem_cons]
      have : ¬ k = k' := fun hh => h hh.symm
      by_cases hm : k ∈ rest.map Prod.fst <;> simp [hm, this]

theorem map_id_of_forall {α : Type} (f : α → α) (l : List α)
    (h : ∀ x ∈ l, f x = x) : l.map f = l := by
  induction l with
  | nil => rfl
  | cons x xs ih =>
    rw [List.map_cons, h x (List.mem_cons_self x xs),
      ih fun a ha => h a (List.mem_cons_of_mem x ha)]

/-- Updating a row that already carries the new payload's values changes
nothing. -/
theorem updateRow_idem (rid : ℕ) (a : UpsertArgs) :
    updateRow (rowOfArgs rid a) a = rowOfArgs rid a := rfl

/-- A row matching on the media id after `updateRow` matched before, and
conversely (the update keeps the key column). -/
theorem updateRow_gmid (r : ImageRow) (a : UpsertArgs) :
    (updateRow r a).google_media_id = r.google_media_id := rfl

theorem upsertImage_fst (table : List ImageRow) (a : UpsertArgs) :
    (upsertImage table a).1 = upsertTable table a := rfl

theorem upsertTable_conflict (table : List ImageRow) (a : UpsertArgs)
    (g : String) (hg : a.google_media_id = some g)
    (hc : table.any (fun r => r.google_media_id = some g) = true) :
    upsertTable table a
      = table.map fun r => if r.google_media_id = some g then updateRow r a
          else r := by
  unfold upsertTable
  simp only [hg, if_pos hc]

/-- Rows with media id `g` after the first upsert all equal the payload
row (up to rowid), and there is exactly one of them. -/
theorem upsertTable_first (table : List ImageRow) (a : UpsertArgs) (g : String)
    (hg : a.google_media_id = some g)
    (hle : List.countP (fun r => r.google_media_id = some g) table ≤ 1) :
    List.countP (fun r => r.google_media_id = some g) (upsertTable table a) = 1
    ∧ ∀ r ∈ upsertTable table a, r.google_media_id = some g →
        r = rowOfArgs r.rowid a := by
  unfold upsertTable
  simp only [hg]
  by_cases hc : table.any (fun r => r.google_media_id = some g) = true
  · rw [if_pos hc]
    constructor
    · rw [List.countP_map]
      have hcomp : ∀ r : ImageRow,
          ((fun r : ImageRow => decide (r.google_media_id = some g)) ∘
            fun r => if r.google_media_id = some g then updateRow r a else r) r
          = decide (r.google_media_id = some g) := by
        intro r
        by_cases hr : r.google_media_id = some g
        · simp [hr, Function.comp, updateRow_gmid]
        · simp [hr, Function.comp]
      rw [funext hcomp]
      obtain ⟨x, hx, hxg⟩ := List.any_eq_true.mp hc
      have h1 : 1 ≤ List.countP (fun r => r.google_media_id = some g) table := by
        rw [List.countP_eq_length_filter]
        have : x ∈ table.filter fun r => r.google_media_id = some g :=
          List.mem_filter.mpr ⟨hx, hxg⟩
        exact List.length_pos.mpr (List.ne_nil_of_mem this)
      omega
    · intro r hr hrg
      obtain ⟨r0, hr0, hr0e⟩ := List.mem_map.mp hr
      by_cases h0 : r0.google_media_id = some g
      · rw [if_pos h0] at hr0e
        subst hr0e
        have : updateRow r0 a = rowOfArgs (updateRow r0 a).rowid a := by
          unfold updateRow rowOfArgs
          have : r0.google_media_id = a.google_media_id := by rw [h0, hg]
          simp [this]
        exact this
      · rw [if_neg h0] at hr0e
        subst hr0e
        exact absurd hrg h0
  · rw [if_neg hc]
    have h0 : List.countP (fun r => r.google_media_id = some g) table = 0 := by
      rw [List.countP_eq_zero]
      intro r hr
      simp only [decide_eq_true_eq]
      intro hrg
      exact hc (List.any_eq_true.mpr ⟨r, hr, by simp [hrg]⟩)
    constructor
    · rw [List.countP_append, h0, List.countP_cons]
      simp [rowOfArgs, hg]
    · intro r hr hrg
      rcases List.mem_append.mp hr with hmem | hmem
      · exfalso
        have := List.countP_eq_zero.mp h0 r hmem
        simp only [decide_eq_true_eq] at this
        exact this hrg
      · rw [List.mem_singleton] at hmem
        subst hmem
        rfl

/-- C6: calling upsert twice with the same external media id and an
identical payload leaves exactly one record for that key, whose stored
field values are the payload's; the second call does not change the
store at all (no duplicate rows, no partial overwrite).  First conjunct
block: `FirestoreDB.add_image_data` on the local store (keyed by the
payload's `image_id`); second block: `Database.upsert_image` on the
SQLite table (keyed by `google_media_id`). -/
theorem upsert_twice_idempotent (store : ImageStore) (p : ImagePayload)
    (uid : Option String) (k : String) (hk : optTruthy p.image_id = some k)
    (hnd : (store.map Prod.fst).Nodup)
    (table : List ImageRow) (a : UpsertArgs) (g : String)
    (hg : a.google_media_id = some g)
    (hle : List.countP (fun r => r.google_media_id = some g) table ≤ 1) :
    ((addImageData store p uid).2 = k
      ∧ (addImageData (addImageData store p uid).1 p uid).1
          = (addImageData store p uid).1
      ∧ List.count k ((addImageData (addImageData store p uid).1 p uid).1.map
          Prod.fst) = 1
      ∧ ((addImageData (addImageData store p uid).1 p uid).1.map
          Prod.fst).Nodup
      ∧ ∃ d : ImageDoc,
          (addImageData (addImageData store p uid).1 p uid).1.lookup k = some d
          ∧ d.description = p.doc.description ∧ d.embedding = p.doc.embedding
          ∧ d.album_title = p.doc.album_title)
    ∧ ((upsertImage (upsertImage table a).1 a).1 = (upsertImage table a).1
      ∧ List.countP (fun r => r.google_media_id = some g)
          (upsertImage (upsertImage table a).1 a).1 = 1
      ∧ ∀ r ∈ (upsertImage (upsertImage table a).1 a).1,
          r.google_media_id = some g → r = rowOfArgs r.rowid a) := by
  constructor
  · have heq : ∀ s : ImageStore, addImageData s p uid =
        (dictInsert s k (storedDoc p uid k), k) := by
      intro s
      unfold addImageData
      rw [hk]
    set D : ImageDoc := storedDoc p uid k with hD
    have hDdesc : D.description = p.doc.description := by
      rw [hD]
      simp only [storedDoc, userDefaulted]
      split_ifs <;> rfl
    have hDemb : D.embedding = p.doc.embedding := by
      rw [hD]
      simp only [storedDoc, userDefaulted]
      split_ifs <;> rfl
    have hDalb : D.album_title = p.doc.album_title := by
      rw [hD]
      simp only [storedDoc, userDefaulted]
      split_ifs <;> rfl
    have hkeys : ∀ s : ImageStore, (dictInsert s k D).map Prod.fst
        = if k ∈ s.map Prod.fst then s.map Prod.fst
          else s.map Prod.fst ++ [k] := fun s => map_fst_dictInsert s k D
    refine ⟨by rw [heq store], ?_, ?_, ?_, ?_⟩
    · rw [heq store, heq (dictInsert store k D)]
      simp only
      rw [dictInsert_dictInsert]
    · rw [heq store, heq (dictInsert store k D)]
      simp only
      rw [dictInsert_dictInsert, hkeys store]
      by_cases hm : k ∈ store.map Prod.fst
      · rw [if_pos hm]
        exact List.count_eq_one_of_mem hnd hm
      · rw [if_neg hm, List.count_append]
        rw [List.count_eq_zero.mpr hm]
        simp
    · rw [heq store, heq (dictInsert store k D)]
      simp only
      rw [dictInsert_dictInsert, hkeys store]
      by_cases hm : k ∈ store.map Prod.fst
      · rw [if_pos hm]
        exact hnd
      · rw [if_neg hm]
        refine List.Nodup.append hnd (List.nodup_singleton k) ?_
        intro x hx hx'
        rw [List.mem_singleton] at hx'
        subst hx'
        exact hm hx
    · refine ⟨D, ?_, hDdesc, hDemb, hDalb⟩
      rw [heq store, heq (dictInsert store k D)]
      simp only
      rw [dictInsert_dictInsert, dictInsert_lookup]
  · obtain ⟨hcount1, hrows1⟩ := upsertTable_first table a g hg hle
    have hany : (upsertTable table a).any
        (fun r => r.google_media_id = some g) = true := by
      rw [List.any_eq_true]
      have : 0 < List.countP (fun r => r.google_media_id = some g)
          (upsertTable table a) := by omega
      rw [List.countP_eq_length_filter] at this
      obtain ⟨r, hr⟩ := List.exists_mem_of_length_pos this
      exact ⟨r, (List.mem_filter.mp hr).1, (List.mem_filter.mp hr).2⟩
    have hsecond : upsertTable (upsertTable table a) a = upsertTable table a := by
      rw [upsertTable_conflict (upsertTable table a) a g hg hany]
      exact map_id_of_forall _ _ fun r hr => by
        by_cases hrg : r.google_media_id = some g
        · rw [if_pos hrg, hrows1 r hr hrg, updateRow_idem,
            ← hrows1 r hr hrg]
        · rw [if_neg hrg]
    rw [upsertImage_fst, upsertImage_fst]
    refine ⟨hsecond, ?_, ?_⟩
    · rw [hsecond]
      exact hcount1
    · intro r hr hrg
      rw [hsecond] at hr
      exact hrows1 r hr hrg

theorem upsert_twice_idempotent_witness :
    (((addImageData [] { image_id := some "m1", doc := {} } none).2 = "m1"
      ∧ (addImageData
          (addImageData [] { image_id := some "m1", doc := {} } none).1
          { image_id := some "m1", doc := {} } none).1
        = (addImageData [] { image_id := some "m1", doc := {} } none).1
      ∧ List.count "m1"
          ((addImageData
            (addImageData [] { image_id := some "m1", doc := {} } none).1
            { image_id := some "m1", doc := {} } none).1.map Prod.fst) = 1
      ∧ ((addImageData
          (addImageData [] { image_id := some "m1", doc := {} } none).1
          { image_id := some "m1", doc := {} } none).1.map Prod.fst).Nodup
      ∧ ∃ d : ImageDoc,
          (addImageData
            (addImageData [] { image_id := some "m1", doc := {} } none).1
            { image_id := some "m1", doc := {} } none).1.lookup "m1" = some d
          ∧ d.description = (({} : ImageDoc)).description
          ∧ d.embedding = (({} : ImageDoc)).embedding
          ∧ d.album_title = (({} : ImageDoc)).album_title)
    ∧ ((upsertImage (upsertImage []
          { google_media_id := some "g1", file_path := "f" }).1
          { google_media_id := some "g1", file_path := "f" }).1
        = (upsertImage [] { google_media_id := some "g1", file_path := "f" }).1
      ∧ List.countP (fun r => r.google_media_id = some "g1")
          (upsertImage (upsertImage []
            { google_media_id := some "g1", file_path := "f" }).1
            { google_media_id := some "g1", file_path := "f" }).1 = 1
      ∧ ∀ r ∈ (upsertImage (upsertImage []
            { google_media_id := some "g1", file_path := "f" }).1
            { google_media_id := some "g1", file_path := "f" }).1,
          r.google_media_id = some "g1" →
            r = rowOfArgs r.rowid
              { google_media_id := some "g1", file_path := "f" })) :=
  upsert_twice_idempotent [] { image_id := some "m1", doc := {} } none "m1"
    rfl List.nodup_nil []
    { google_media_id := some "g1", file_path := "f" } "g1" rfl
    (by simp)

theorem ingestStep_lastTimestamp (env : IngestEnv) (title : Option String)
    (st : IngestState) (item : MediaItem) (mediaId baseUrl : String) :
    (ingestStep env title st item mediaId baseUrl).lastTimestamp
      = match st.lastTimestamp with
        | none => some (item.creationTime.getD 0)
        | some lt =>
          if item.creationTime.getD 0 > lt then some (item.creationTime.getD 0)
          else some lt := rfl

theorem ingestStep_events (env : IngestEnv) (title : Option String)
    (st : IngestState) (item : MediaItem) (mediaId baseUrl : String) :
    (ingestStep env title st item mediaId baseUrl).events
      = st.events
        ++ [.download baseUrl, .describe (env.download baseUrl)]
        ++ (if env.describe (env.download baseUrl) = "" then []
            else [.embed (env.describe (env.download baseUrl))])
        ++ [.upsert mediaId (item.creationTime.getD 0)] := rfl

/-- Reduction of the loop body for an item that passes the MIME, id,
dedup and base-URL tests: only the timestamp test remains. -/
theorem processItem_eligible (env : IngestEnv) (title : Option String)
    (st : IngestState) (item : MediaItem) (mediaId baseUrl : String)
    (hmime : strStartsWith (item.mimeType.getD "") "image/" = true)
    (hid : optTruthy item.id = some mediaId)
    (hex : hasMediaItem st.records mediaId = false)
    (hurl : optTruthy item.baseUrl = some baseUrl) :
    processItem env title st item
      = if staleCheck st.lastTimestamp (item.creationTime.getD 0) then st
        else ingestStep env title st item mediaId baseUrl := by
  unfold processItem
  rw [if_neg (by simp [hmime])]
  simp only [hid]
  rw [if_neg (by simp [hex])]
  simp only [hurl]

/-- Every branch of the loop body either leaves the state unchanged or
runs the processing tail on an item that passed all four skip tests. -/
theorem processItem_eq_or (env : IngestEnv) (title : Option String)
    (st : IngestState) (item : MediaItem) :
    processItem env title st item = st
    ∨ ∃ mediaId baseUrl, optTruthy item.id = some mediaId
      ∧ optTruthy item.baseUrl = some baseUrl
      ∧ hasMediaItem st.records mediaId = false
      ∧ staleCheck st.lastTimestamp (item.creationTime.getD 0) = false
      ∧ processItem env title st item
          = ingestStep env title st item mediaId baseUrl := by
  by_cases hmime : strStartsWith (item.mimeType.getD "") "image/" = true
  · cases hid : optTruthy item.id with
    | none =>
      left
      unfold processItem
      rw [if_neg (by simp [hmime])]
      simp only [hid]
    | some mediaId =>
      by_cases hex : hasMediaItem st.records mediaId = true
      · left
        unfold processItem
        rw [if_neg (by simp [hmime])]
        simp only [hid]
        rw [if_pos hex]
      · rw [Bool.not_eq_true] at hex
        cases hurl : optTruthy item.baseUrl with
        | none =>
          left
          unfold processItem
          rw [if_neg (by simp [hmime])]
          simp only [hid]
          rw [if_neg (by simp [hex])]
          simp only [hurl]
        | some baseUrl =>
          by_cases hstale :
              staleCheck st.lastTimestamp (item.creationTime.getD 0) = true
          · left
            rw [processItem_eligible env title st item mediaId baseUrl hmime
              hid hex hurl, if_pos hstale]
          · rw [Bool.not_eq_true] at hstale
            right
            exact ⟨mediaId, baseUrl, rfl, rfl, hex, hstale, by
              rw [processItem_eligible env title st item mediaId baseUrl hmime
                hid hex hurl, if_neg (by simp [hstale])]⟩
  · left
    unfold processItem
    rw [if_pos (by simpa using hmime)]

theorem processItem_lastTimestamp_mono (env : IngestEnv)
    (title : Option String) (st : IngestState) (item : MediaItem) (lt : ℤ)
    (h : st.lastTimestamp = some lt) :
    ∃ lt', (processItem env title st item).lastTimestamp = some lt'
      ∧ lt ≤ lt' := by
  rcases processItem_eq_or env title st item with he | ⟨mid, url, _, _, _, _, he⟩
  · rw [he]
    exact ⟨lt, h, le_refl lt⟩
  · rw [he, ingestStep_lastTimestamp]
    simp only [h]
    by_cases hgt : item.creationTime.getD 0 > lt
    · rw [if_pos hgt]
      exact ⟨_, rfl, le_of_lt hgt⟩
    · rw [if_neg hgt]
      exact ⟨lt, rfl, le_refl lt⟩

theorem foldl_lastTimestamp_mono (env : IngestEnv) (title : Option String)
    (items : List MediaItem) (st : IngestState) (lt : ℤ)
    (h : st.lastTimestamp = some lt) :
    ∃ lt', (items.foldl (processItem env title) st).lastTimestamp = some lt'
      ∧ lt ≤ lt' := by
  induction items generalizing st lt with
  | nil => exact ⟨lt, h, le_refl lt⟩
  | cons x xs ih =>
    obtain ⟨lt1, h1, hle1⟩ := processItem_lastTimestamp_mono env title st x lt h
    obtain ⟨lt2, h2, hle2⟩ := ih (processItem env title st x) lt1 h1
    exact ⟨lt2, h2, le_trans hle1 hle2⟩

theorem getLatest_go_mono (title : Option String) (l : List StoredRecord)
    (b : ℤ) :
    ∃ w, List.foldl (fun best r =>
        if (optTruthy title).isSome ∧ r.album_title ≠ title then best
        else
          match best with
          | none => some r.timestamp
          | some b => if r.timestamp > b then some r.timestamp else best) (some b) l
      = some w ∧ b ≤ w := by
  induction l generalizing b with
  | nil => exact ⟨b, rfl, le_refl b⟩
  | cons x xs ih =>
    by_cases hskip : (optTruthy title).isSome ∧ x.album_title ≠ title
    · simpa [hskip] using ih b
    · by_cases hgt : x.timestamp > b
      · obtain ⟨w, hw, hbw⟩ := ih x.timestamp
        exact ⟨w, by simp [hskip, hgt, hw], le_trans (le_of_lt hgt) hbw⟩
      · obtain ⟨w, hw, hbw⟩ := ih b
        exact ⟨w, by simp [hskip, hgt, hw], hbw⟩

theorem getLatest_aux (title : Option String) (l : List StoredRecord) :
    ∀ (o : Option ℤ) (r : StoredRecord), r ∈ l →
      ((optTruthy title).isSome → r.album_title = title) →
      ∃ w, List.foldl (fun best r =>
          if (optTruthy title).isSome ∧ r.album_title ≠ title then best
          else
            match best with
            | none => some r.timestamp
            | some b => if r.timestamp > b then some r.timestamp else best)
        o l = some w ∧ r.timestamp ≤ w := by
  induction l with
  | nil =>
    intro o r hr
    cases hr
  | cons x xs ih =>
    intro o r hr hmatch
    rw [List.foldl_cons]
    rcases List.mem_cons.mp hr with hx | hx
    · subst hx
      have hskip : ¬ ((optTruthy title).isSome ∧ r.album_title ≠ title) := by
        rintro ⟨h1, h2⟩
        exact h2 (hmatch h1)
      rw [if_neg hskip]
      cases o with
      | none => exact getLatest_go_mono title xs r.timestamp
      | some b =>
        by_cases hgt : r.timestamp > b
        · simp only [if_pos hgt]
          exact getLatest_go_mono title xs r.timestamp
        · simp only [if_neg hgt]
          obtain ⟨w, hw, hbw⟩ := getLatest_go_mono title xs b
          exact ⟨w, hw, le_trans (by omega) hbw⟩
    · exact ih _ r hx hmatch

/-- The watermark read before the loop is at least the timestamp of any
already-stored record that matches the album filter. -/
theorem getLatestMediaTimestamp_ge (records : List StoredRecord)
    (title : Option String) (r : StoredRecord) (hr : r ∈ records)
    (hmatch : (optTruthy title).isSome → r.album_title = title) :
    ∃ w, getLatestMediaTimestamp records title = some w ∧ r.timestamp ≤ w := by
  unfold getLatestMediaTimestamp
  exact getLatest_aux title records none r hr hmatch

/-- A concrete collaborator environment for closed-input evaluation. -/
def sampleEnv : IngestEnv :=
  { download := fun _ => [7]
    thumbnail := fun b => b
    describe := fun _ => "a photo"
    embedText := fun _ => [1] }

/-- C7: when the store already contains an item's external media id at
the moment the item is considered (`has_media_item` returns true), the
loop body leaves the run state completely unchanged — in particular it
appends no download, describe or embed event, so neither the download
operation nor any oracle call is invoked for that item. -/
theorem dedup_skips_downloads_and_oracle (env : IngestEnv)
    (title : Option String) (st : IngestState) (item : MediaItem)
    (mediaId : String) (hid : optTruthy item.id = some mediaId)
    (hex : hasMediaItem st.records mediaId = true) :
    processItem env title st item = st := by
  unfold processItem
  by_cases hmime : strStartsWith (item.mimeType.getD "") "image/" = true
  · rw [if_neg (by simp [hmime])]
    simp only [hid]
    rw [if_pos hex]
  · rw [if_pos (by simpa using hmime)]

theorem dedup_skips_downloads_and_oracle_witness :
    processItem sampleEnv (some "A")
        { records := [{ media_id := "m" }], lastTimestamp := none, events := [] }
        { id := some "m", mimeType := some "image/jpeg" }
      = { records := [{ media_id := "m" }], lastTimestamp := none,
          events := [] } :=
  dedup_skips_downloads_and_oracle sampleEnv (some "A")
    { records := [{ media_id := "m" }], lastTimestamp := none, events := [] }
    { id := some "m", mimeType := some "image/jpeg" } "m" (by decide) (by decide)

/-- C8: if a record with timestamp `T` that matches the album filter is
already stored when the run begins, then an item the source yields whose
effective timestamp is ≤ `T` is skipped wherever it occurs in the run:
its loop iteration leaves the state unchanged, so that item is neither
downloaded nor upserted.  (The watermark read before the loop is ≥ `T`,
and the running `last_timestamp` never decreases.) -/
theorem watermark_skips_stale_item (env : IngestEnv)
    (records : List StoredRecord) (title : Option String) (r : StoredRecord)
    (hr : r ∈ records)
    (hmatch : (optTruthy title).isSome → r.album_title = title)
    (pre : List MediaItem) (item : MediaItem)
    (hts : item.creationTime.getD 0 ≤ r.timestamp) :
    processItem env title
        (pre.foldl (processItem env title) (initIngestState records title))
        item
      = pre.foldl (processItem env title) (initIngestState records title) := by
  obtain ⟨w, hw, hrw⟩ := getLatestMediaTimestamp_ge records title r hr hmatch
  have hinit : (initIngestState records title).lastTimestamp = some w := hw
  obtain ⟨w', hw', hww'⟩ := foldl_lastTimestamp_mono env title pre _ w hinit
  rcases processItem_eq_or env title
      (pre.foldl (processItem env title) (initIngestState records title)) item
    with he | ⟨mid, url, _, _, _, hstale, _⟩
  · exact he
  · exfalso
    have hst : staleCheck
        (pre.foldl (processItem env title)
          (initIngestState records title)).lastTimestamp
        (item.creationTime.getD 0) = true := by
      rw [hw']
      simp only [staleCheck, decide_eq_true_eq]
      omega
    rw [hstale] at hst
    cases hst

theorem watermark_skips_stale_item_witness :
    processItem sampleEnv (some "A")
        (([] : List MediaItem).foldl (processItem sampleEnv (some "A"))
          (initIngestState
            [{ media_id := "old", album_title := some "A", timestamp := 10 }]
            (some "A")))
        { id := some "m", mimeType := some "image/jpeg", baseUrl := some "u",
          creationTime := some 5 }
      = ([] : List MediaItem).foldl (processItem sampleEnv (some "A"))
          (initIngestState
            [{ media_id := "old", album_title := some "A", timestamp := 10 }]
            (some "A")) :=
  watermark_skips_stale_item sampleEnv
    [{ media_id := "old", album_title := some "A", timestamp := 10 }]
    (some "A") { media_id := "old", album_title := some "A", timestamp := 10 }
    (List.mem_cons_self _ _) (fun _ => rfl) []
    { id := some "m", mimeType := some "image/jpeg", baseUrl := some "u",
      creationTime := some 5 }
    (by decide)

/-- The maximum timestamp among the upsert events of a run, folded on
top of an initial watermark value — the value the claim calls the
"maximum timestamp seen during the run". -/
def runMax (w : Option ℤ) (events : List IngestEvent) : Option ℤ :=
  events.foldl (fun acc e =>
    match e with
    | .upsert _ ts =>
      match acc with
      | none => some ts
      | some b => if ts > b then some ts else some b
    | _ => acc) w

theorem runMax_append (w : Option ℤ) (l1 l2 : List IngestEvent) :
    runMax w (l1 ++ l2) = runMax (runMax w l1) l2 := by
  unfold runMax
  rw [List.foldl_append]

/-- A first media item for closed-input runs: an image with timestamp 5. -/
def mediaItemA : MediaItem :=
  { id := some "m1", mimeType := some "image/jpeg", baseUrl := some "u1",
    creationTime := some 5 }

/-- A second media item for closed-input runs: an image with timestamp 3. -/
def mediaItemB : MediaItem :=
  { id := some "m2", mimeType := some "image/jpeg", baseUrl := some "u2",
    creationTime := some 3 }

/-- C1, counterexample: over an empty store, the watermark read before
the album loop is `none`, so by the claim no item of the run can be
skipped by the timestamp test (no item's timestamp is ≤ a non-existent
watermark).  Yet after an item with timestamp 5 is processed, the item
with timestamp 3 is skipped — its upsert never happens — while the same
item alone in the run is ingested.  The in-run maximum therefore governs
the skip decision, and the decision depends on items processed earlier
in the same run. -/
theorem run_max_affects_skip_counterexample :
    getLatestMediaTimestamp [] (some "A") = none
    ∧ IngestEvent.upsert "m2" 3
        ∉ (ingestAlbum sampleEnv [] (some "A") [mediaItemA, mediaItemB]).events
    ∧ IngestEvent.upsert "m2" 3
        ∈ (ingestAlbum sampleEnv [] (some "A") [mediaItemB]).events := by
  refine ⟨rfl, ?_, ?_⟩ <;> decide

theorem processItem_runMax (env : IngestEnv) (title : Option String)
    (st : IngestState) (item : MediaItem) (w : Option ℤ)
    (h : st.lastTimestamp = runMax w st.events) :
    (processItem env title st item).lastTimestamp
      = runMax w (processItem env title st item).events := by
  rcases processItem_eq_or env title st item with he | ⟨mid, url, _, _, _, _, he⟩
  · rw [he]
    exact h
  · rw [he, ingestStep_lastTimestamp, ingestStep_events]
    rw [runMax_append, runMax_append, runMax_append]
    have h1 : runMax (runMax w st.events)
        [.download url, .describe (env.download url)] = runMax w st.events := rfl
    have h2 : ∀ acc : Option ℤ, runMax acc
        (if env.describe (env.download url) = "" then []
          else [.embed (env.describe (env.download url))]) = acc := by
      intro acc
      by_cases hd : env.describe (env.download url) = ""
      · rw [if_pos hd]
        rfl
      · rw [if_neg hd]
        rfl
    rw [h1, h2, ← h]
    cases hlt : st.lastTimestamp <;> rfl

theorem foldl_runMax (env : IngestEnv) (title : Option String) (w : Option ℤ)
    (items : List MediaItem) (st : IngestState)
    (h : st.lastTimestamp = runMax w st.events) :
    (items.foldl (processItem env title) st).lastTimestamp
      = runMax w ((items.foldl (processItem env title) st).events) := by
  induction items generalizing st with
  | nil => exact h
  | cons x xs ih => exact ih _ (processItem_runMax env title st x w h)

/-- C1, amended: the "maximum timestamp seen this run" is not separate
from the watermark and is not purely diagnostic — `last_timestamp` is
one variable, advanced after every upsert, and the skip test reads it.
During a run, the running value equals the maximum of the watermark read
before the loop and the timestamps upserted earlier in the run (first
conjunct), and an item that passes the MIME, id, dedup and base-URL
tests is skipped (its iteration changes nothing) iff its effective
timestamp is ≤ that running value (second conjunct) — not iff it is ≤
the pre-loop watermark alone. -/
theorem run_max_governs_skip (env : IngestEnv) (records : List StoredRecord)
    (title : Option String) (pre : List MediaItem) (item : MediaItem)
    (mediaId baseUrl : String)
    (hmime : strStartsWith (item.mimeType.getD "") "image/" = true)
    (hid : optTruthy item.id = some mediaId)
    (hex : hasMediaItem
      (pre.foldl (processItem env title) (initIngestState records title)).records
      mediaId = false)
    (hurl : optTruthy item.baseUrl = some baseUrl) :
    (pre.foldl (processItem env title)
        (initIngestState records title)).lastTimestamp
      = runMax (getLatestMediaTimestamp records title)
          (pre.foldl (processItem env title)
            (initIngestState records title)).events
    ∧ (processItem env title
          (pre.foldl (processItem env title) (initIngestState records title))
          item
        = pre.foldl (processItem env title) (initIngestState records title)
      ↔ ∃ b, (pre.foldl (processItem env title)
            (initIngestState records title)).lastTimestamp = some b
          ∧ item.creationTime.getD 0 ≤ b) := by
  constructor
  · exact foldl_runMax env title (getLatestMediaTimestamp records title) pre
      (initIngestState records title) rfl
  · rw [processItem_eligible env title
      (pre.foldl (processItem env title) (initIngestState records title))
      item mediaId baseUrl hmime hid hex hurl]
    by_cases hstale : staleCheck
        (pre.foldl (processItem env title)
          (initIngestState records title)).lastTimestamp
        (item.creationTime.getD 0) = true
    · rw [if_pos hstale]
      refine iff_of_true rfl ?_
      cases hS : (pre.foldl (processItem env title)
          (initIngestState records title)).lastTimestamp with
      | none =>
        rw [hS] at hstale
        cases hstale
      | some b =>
        rw [hS] at hstale
        exact ⟨b, rfl, of_decide_eq_true hstale⟩
    · rw [if_neg hstale]
      refine iff_of_false ?_ ?_
      · intro heq
        have hlen := congrArg (fun s => s.events.length) heq
        simp only [ingestStep_events] at hlen
        by_cases hd : env.describe (env.download baseUrl) = ""
        · rw [if_pos hd] at hlen
          simp [List.length_append] at hlen
        · rw [if_neg hd] at hlen
          simp [List.length_append] at hlen
      · rintro ⟨b, hb, hle⟩
        refine hstale ?_
        rw [hb]
        exact decide_eq_true hle

theorem run_max_governs_skip_witness :
    (([mediaItemA] : List MediaItem).foldl (processItem sampleEnv (some "A"))
        (initIngestState [] (some "A"))).lastTimestamp
      = runMax (getLatestMediaTimestamp [] (some "A"))
          (([mediaItemA] : List MediaItem).foldl
            (processItem sampleEnv (some "A"))
            (initIngestState [] (some "A"))).events
    ∧ (processItem sampleEnv (some "A")
          (([mediaItemA] : List MediaItem).foldl
            (processItem sampleEnv (some "A"))
            (initIngestState [] (some "A"))) mediaItemB
        = ([mediaItemA] : List MediaItem).foldl
            (processItem sampleEnv (some "A")) (initIngestState [] (some "A"))
      ↔ ∃ b, (([mediaItemA] : List MediaItem).foldl
            (processItem sampleEnv (some "A"))
            (initIngestState [] (some "A"))).lastTimestamp = some b
          ∧ mediaItemB.creationTime.getD 0 ≤ b) :=
  run_max_governs_skip sampleEnv [] (some "A") [mediaItemA] mediaItemB
    "m2" "u2" (by decide) (by decide) (by decide) (by decide)

end SourceBruh
